import Mathlib

/-!
Verification development for the gql-faker value-synthesis engine.

The definitions below are a shallow embedding of the fake-schema resolver
module (fakeTypeResolver, fakeFieldResolver and its inner helpers
fakeValueOfType, getFakeValueCB, getExampleValueCB, getListLength, plus the
top-level fakeLeafValueCB, getDirectiveArgs, isPlainObject) and of the
root-type-placeholder substitution performed by runServer before the schema
merge.

Modelling conventions:
- JavaScript runtime values are the inductive `Value`; `vundefined` is the
  JS `undefined`, `vnull` is `null`, `verror` is an `Error` instance.
- Objects are association lists; JS property lookup is last-binding-wins,
  matching the semantics of the object-spread merges the code performs.
- Randomness (faker's `getRandomInt`) and the external faker library
  (`fakeValue`, `stdScalarFakers`, both imported from the fake module) are
  an explicit environment `Env`; theorems that need "a random integer in
  an inclusive range" take that as a hypothesis on `Env.randInt`.
- Code that can throw (the `assert` in getDirectiveArgs, invalid array
  lengths, member access on an undefined random pick) runs in
  `Except Unit`.
- GraphQL schema objects are reduced to the parts the resolvers consult:
  directive-argument views of AST nodes, extension AST nodes, possible
  types of abstract types, the mutation root name.
-/

namespace GqlFaker

/-- A JavaScript runtime value as the resolvers see it. -/
inductive Value where
  | vundefined : Value
  | vnull : Value
  | vbool (b : Bool) : Value
  | vint (n : Int) : Value
  | vstr (s : String) : Value
  | varr (items : List Value) : Value
  | vobj (fields : List (String × Value)) : Value
  | verror (msg : String) : Value

/-- Arguments of the fake generator annotation: `{type, options, locale}`. -/
structure FakeArgsT where
  type : String
  options : Value
  locale : Value

/-- Arguments of the examples annotation: `{values}`. -/
structure ExamplesArgsT where
  values : List Value

/-- Arguments of the listLength annotation: `{min, max}`. -/
structure ListLengthArgsT where
  min : Int
  max : Int

/-- One declaration-site AST node, reduced to the directive arguments the
library call getDirectiveValues would extract from it for each of the three
directives the engine consults (`none` = the directive is not applied on
this node). -/
structure ASTNode where
  fakeArgs : Option FakeArgsT
  examplesArgs : Option ExamplesArgsT
  listLengthArgs : Option ListLengthArgsT

/-- A schema element (type or field) as getDirectiveArgs sees it: an
optional base declaration node and optional extension nodes. -/
structure Element where
  astNode : Option ASTNode
  extensionNodes : Option (List ASTNode)

/-- The category of a named GraphQL type. -/
inductive TypeKind where
  | scalar : TypeKind
  | enum : TypeKind
  | object : TypeKind
  | interface : TypeKind
  | union : TypeKind
deriving DecidableEq

/-- A named (unwrapped) GraphQL type: its name, category, enum values
(already mapped through `.value` as the source does) and its
declaration-site element. -/
structure NamedType where
  name : String
  kind : TypeKind
  enumValues : List Value
  el : Element

/-- A GraphQL output type: non-null wrapper, list wrapper, or named type. -/
inductive GQLType where
  | nonNull (ofType : GQLType) : GQLType
  | listW (ofType : GQLType) : GQLType
  | named (t : NamedType) : GQLType

/-- A field definition: its declared type and its declaration element. -/
structure FieldDef where
  type : GQLType
  el : Element

/-- The parts of the schema object the resolvers consult. -/
structure Schema where
  dirNames : List String
  possibleTypes : String → List NamedType
  mutationTypeName : Option String

/-- schema.getDirective(name) reduced to definedness of the directive. -/
def Schema.getDirective (s : Schema) (name : String) : Bool :=
  s.dirNames.contains name

/-- The external environment: the random primitive and the faker-library
callbacks imported from the fake module. -/
structure Env where
  randInt : Int → Int → Int
  fakeValueFn : String → Value → Value → Value
  stdScalarFakers : String → Option Value

/-- getRandomInt from the fake module (a random integer drawn by faker). -/
def getRandomInt (env : Env) (lo hi : Int) : Int :=
  env.randInt lo hi

/-- getRandomItem: array[getRandomInt(0, array.length - 1)]; an
out-of-range index reads as JS `undefined`, here `none`. -/
def getRandomItem {α : Type} (env : Env) (xs : List α) : Option α :=
  let i := getRandomInt env 0 (Int.ofNat xs.length - 1)
  if i < 0 then none else xs.get? i.toNat

/-- isLeafType: scalar or enum. -/
def isLeafKind : TypeKind → Bool
  | .scalar => true
  | .enum => true
  | _ => false

/-- isAbstractType: interface or union. -/
def isAbstractKind : TypeKind → Bool
  | .interface => true
  | .union => true
  | _ => false

/-- isCompositeType: object, interface or union. -/
def isCompositeKind : TypeKind → Bool
  | .object => true
  | .interface => true
  | .union => true
  | _ => false

/-- getNullableType: strip one non-null wrapper. -/
def getNullableType : GQLType → GQLType
  | .nonNull t => t
  | t => t

/-- isCompositeType on a (possibly wrapped) type: only a named type of
composite kind qualifies. -/
def isCompositeTypeW : GQLType → Bool
  | .named nt => isCompositeKind nt.kind
  | _ => false

/-- isPlainObject: typeof 'object', not null, not an array. JS `Error`
instances satisfy all three, so `verror` counts as a plain object too. -/
def isPlainObject : Value → Bool
  | .vobj _ => true
  | .verror _ => true
  | _ => false

/-- value instanceof Error. -/
def isErrorV : Value → Bool
  | .verror _ => true
  | _ => false

/-- The fields contributed by a JS object spread `...v`: an object spreads
its own entries, arrays and strings spread index-keyed entries, every
other value spreads nothing. -/
def jsSpreadFields : Value → List (String × Value)
  | .vobj f => f
  | .varr xs => xs.enum.map (fun p => (toString p.1, p.2))
  | .vstr s => (s.toList.enum).map (fun p => (toString p.1, Value.vstr (String.singleton p.2)))
  | _ => []

/-- JS property read on an association-list object: the last binding of
the key wins (objects built by spreads append the overriding entries). -/
def lookupKey : List (String × Value) → String → Option Value
  | [], _ => none
  | (k', v) :: rest, k =>
    match lookupKey rest k with
    | some v' => some v'
    | none => if k' == k then some v else none

/-- Object.keys of an association-list object: first occurrence order,
duplicates collapsed. -/
def jsKeys (o : List (String × Value)) : List String :=
  (o.map Prod.fst).dedup

/-- The scan body of getDirectiveArgs: start undefined, take the base
astNode's extraction if the node exists, then overwrite with each
extension node's extraction in order (the loop assigns unconditionally,
also when the extraction is undefined). `view` is
`node => getDirectiveValues(directive, node)` for the directive at hand. -/
def scanDirective {α : Type} (view : ASTNode → Option α) (el : Element) : Option α :=
  let args : Option α := none
  let args : Option α :=
    match el.astNode with
    | some node => view node
    | none => args
  match el.extensionNodes with
  | some nodes => nodes.foldl (fun _a node => view node) args
  | none => args

/-- getDirectiveArgs(directive, object): asserts the directive definition
exists in the schema (`dirDefined`), then scans the object's declaration
sites. -/
def getDirectiveArgs {α : Type} (dirDefined : Bool) (view : ASTNode → Option α)
    (el : Element) : Except Unit (Option α) :=
  if dirDefined then Except.ok (scanDirective view el) else Except.error ()

/-- A defunctionalized annotation-driven value callback: the closures the
source builds are fully determined by the extracted directive arguments. -/
inductive ValueCB where
  | examplesCB (values : List Value) : ValueCB
  | fakeCB (fakeType : String) (options : Value) (locale : Value) : ValueCB

/-- Invoking a value callback: an examples callback picks a random member
of its value set, a fake callback calls the faker library. -/
def runCB (env : Env) : ValueCB → Value
  | .examplesCB values => (getRandomItem env values).getD Value.vundefined
  | .fakeCB t o l => env.fakeValueFn t o l

/-- getFakeValueCB(object): extract the fake directive's arguments and, if
present, return the callback invoking the faker library with them. -/
def getFakeValueCB (schema : Schema) (el : Element) : Except Unit (Option ValueCB) := do
  let args ← getDirectiveArgs (schema.getDirective "fake") (fun n => n.fakeArgs) el
  pure (args.map (fun a => ValueCB.fakeCB a.type a.options a.locale))

/-- getExampleValueCB(object): extract the examples directive's arguments
and, if present, return the callback picking a random member of `values`. -/
def getExampleValueCB (schema : Schema) (el : Element) : Except Unit (Option ValueCB) := do
  let args ← getDirectiveArgs (schema.getDirective "examples") (fun n => n.examplesArgs) el
  pure (args.map (fun a => ValueCB.examplesCB a.values))

/-- getListLength(object): a random integer in the annotated inclusive
range if the listLength directive is applied, else in [2, 4]. -/
def getListLength (env : Env) (schema : Schema) (el : Element) : Except Unit Int := do
  let args ← getDirectiveArgs (schema.getDirective "listLength") (fun n => n.listLengthArgs) el
  match args with
  | some a => pure (getRandomInt env a.min a.max)
  | none => pure (getRandomInt env 2 4)

/-- The short-circuiting callback-selection chain of fakeValueOfType:
getExampleValueCB(fieldDef) || getFakeValueCB(fieldDef) ||
getExampleValueCB(type) || getFakeValueCB(type). -/
def getValueCB (schema : Schema) (fieldEl typeEl : Element) : Except Unit (Option ValueCB) := do
  match ← getExampleValueCB schema fieldEl with
  | some cb => pure (some cb)
  | none =>
    match ← getFakeValueCB schema fieldEl with
    | some cb => pure (some cb)
    | none =>
      match ← getExampleValueCB schema typeEl with
      | some cb => pure (some cb)
      | none => getFakeValueCB schema typeEl

/-- fakeLeafValueCB(type): for enums a random declared value, else the
registered scalar faker if any, else the placeholder string wrapping the
type name in angle brackets. -/
def fakeLeafValueCB (env : Env) (t : NamedType) : Value :=
  if t.kind = TypeKind.enum then
    (getRandomItem env t.enumValues).getD Value.vundefined
  else
    match env.stdScalarFakers t.name with
    | some v => v
    | none => Value.vstr ("<" ++ t.name ++ ">")

/-- fakeValueOfType (the inner recursion of fakeFieldResolver, closed over
fieldDef and schema): unwrap non-null; for lists draw a length and build
that many items (each JS iteration makes the identical pure recursive
call, so the array is a replicate of the item value; a negative length
would make the Array constructor throw); for named types select the
annotation callback and dispatch on leaf vs composite, with abstract
composites drawing a random possible type (member access on an undefined
pick throws). -/
def fakeValueOfType (env : Env) (schema : Schema) (fieldDef : FieldDef) :
    GQLType → Except Unit Value
  | .nonNull t => fakeValueOfType env schema fieldDef t
  | .listW t => do
    let n ← getListLength env schema fieldDef.el
    if n < 0 then
      Except.error ()
    else do
      let item ← fakeValueOfType env schema fieldDef t
      pure (Value.varr (List.replicate n.toNat item))
  | .named nt => do
    let valueCB ← getValueCB schema fieldDef.el nt.el
    if isLeafKind nt.kind then
      match valueCB with
      | some cb => pure (runCB env cb)
      | none => pure (fakeLeafValueCB env nt)
    else do
      let tn ←
        if isAbstractKind nt.kind then
          match getRandomItem env (schema.possibleTypes nt.name) with
          | some t => pure t.name
          | none => Except.error ()
        else
          pure nt.name
      pure (Value.vobj (("__typename", Value.vstr tn) ::
        (match valueCB with
         | some cb => jsSpreadFields (runCB env cb)
         | none => [])))

/-- The outcome of abstract-type resolution: the external default
resolver's answer is a type name string, the fallback returns the type
object itself. -/
inductive TypeResolution where
  | namedRes (s : String) : TypeResolution
  | typeObjRes (t : NamedType) : TypeResolution

/-- The concrete type name a resolution denotes. -/
def resolutionName : TypeResolution → String
  | .namedRes s => s
  | .typeObjRes t => t.name

/-- fakeTypeResolver: return the external default type resolution when it
is non-null, else a random member of the schema's possible types for the
abstract type (JS yields `undefined` when that list is empty). -/
def fakeTypeResolver (env : Env) (schema : Schema) (defaultResolved : Option String)
    (abstractTypeName : String) : Option TypeResolution :=
  match defaultResolved with
  | some s => some (TypeResolution.namedRes s)
  | none => (getRandomItem env (schema.possibleTypes abstractTypeName)).map TypeResolution.typeObjRes

/-- The `resolved` binding of fakeFieldResolver: synthesize only when the
externally resolved value is strictly `undefined`. -/
def resolveBase (env : Env) (schema : Schema) (fieldDef : FieldDef)
    (defaultResolved : Value) : Except Unit Value :=
  match defaultResolved with
  | .vundefined => fakeValueOfType env schema fieldDef fieldDef.type
  | v => pure v

/-- fakeFieldResolver: propagate an Error default resolution unchanged;
otherwise compute `resolved`; on a mutation-root field with composite
return type and plain-object `resolved`, spread the single plain-object
`input` argument (when it is the only argument) or else all arguments over
`resolved`; otherwise return `resolved`. -/
def fakeFieldResolver (env : Env) (schema : Schema) (parentTypeName : String)
    (fieldDef : FieldDef) (args : List (String × Value)) (defaultResolved : Value) :
    Except Unit Value := do
  if isErrorV defaultResolved then
    pure defaultResolved
  else do
    let resolved ← resolveBase env schema fieldDef defaultResolved
    let isMutation := schema.mutationTypeName == some parentTypeName
    let isCompositeReturn := isCompositeTypeW (getNullableType fieldDef.type)
    if isMutation && isCompositeReturn && isPlainObject resolved then
      let inputArg := (lookupKey args "input").getD Value.vundefined
      pure (Value.vobj (jsSpreadFields resolved ++
        (if (jsKeys args).length == 1 && isPlainObject inputArg then
          jsSpreadFields inputArg
        else
          args)))
    else
      pure resolved

/-- Boolean substring containment over character lists. -/
def isPrefixL : List Char → List Char → Bool
  | [], _ => true
  | _ :: _, [] => false
  | p :: ps, c :: cs => p == c && isPrefixL ps cs

/-- Whether `pat` occurs as a contiguous substring of `s`. -/
def hasSub : List Char → List Char → Bool
  | [], pat => pat.isEmpty
  | c :: rest, pat => isPrefixL pat (c :: rest) || hasSub rest pat

/-- JS String.prototype.replace with a string pattern: replace only the
first occurrence, leave the rest of the string unchanged. -/
def replFirst : List Char → List Char → List Char → List Char
  | [], _, _ => []
  | c :: rest, pat, rep =>
    if isPrefixL pat (c :: rest) then rep ++ (c :: rest).drop pat.length
    else c :: replFirst rest pat rep

/-- The placeholder token runServer substitutes in the extension SDL. -/
def rootTypeToken : List Char := "<RootTypeName>".toList

/-- The substitution runServer performs before the merge:
the first occurrence of the token in extensionSDL.body is swapped for schema.getQueryType().name. -/
def substituteRootTypeName (extBody rootName : String) : String :=
  String.mk (replFirst extBody.toList rootTypeToken rootName.toList)

/-! ### Concrete fixtures used by witnesses and counterexamples -/

def nodeNone : ASTNode := ⟨none, none, none⟩

def nodeExamples : ASTNode := ⟨none, some ⟨[Value.vstr "a", Value.vstr "b"]⟩, none⟩

def nodeFake : ASTNode := ⟨some ⟨"address_city", Value.vnull, Value.vnull⟩, none, none⟩

def nodeListLen : ASTNode := ⟨none, none, some ⟨1, 3⟩⟩

def elNone : Element := ⟨none, none⟩

def elExamples : Element := ⟨some nodeExamples, none⟩

def elFake : Element := ⟨some nodeFake, none⟩

def elBaseExtW : Element := ⟨some nodeExamples, some [nodeNone]⟩

def elListLen : Element := ⟨some nodeListLen, none⟩

def envW : Env := ⟨fun lo _ => lo, fun _ _ _ => Value.vnull, fun _ => none⟩

def ntItemW : NamedType := ⟨"Item", TypeKind.object, [], ⟨none, none⟩⟩

def schemaW : Schema := ⟨["fake", "examples", "listLength"], fun _ => [ntItemW], some "Mutation"⟩

def ntScalarW : NamedType := ⟨"DateTime", TypeKind.scalar, [], ⟨none, none⟩⟩

def fdScalarW : FieldDef := ⟨GQLType.named ntScalarW, ⟨none, none⟩⟩

def fdListW : FieldDef := ⟨GQLType.listW (GQLType.named ntScalarW), elListLen⟩

def fdListPlainW : FieldDef := ⟨GQLType.listW (GQLType.named ntScalarW), ⟨none, none⟩⟩

def ntObjW : NamedType := ⟨"Payload", TypeKind.object, [], ⟨none, none⟩⟩

def fdObjW : FieldDef := ⟨GQLType.named ntObjW, ⟨none, none⟩⟩

/-! ### General helper lemmas -/

theorem foldl_overwrite_last {β γ : Type} (f : β → γ) :
    ∀ (ns : List β) (init : γ) (n : β), ns.getLast? = some n →
      ns.foldl (fun _a node => f node) init = f n := by
  intro ns
  induction ns with
  | nil => intro init n h; simp at h
  | cons x xs ih =>
    intro init n h
    cases xs with
    | nil => simp at h; simp [h, List.foldl]
    | cons y ys =>
      rw [List.getLast?_cons_cons] at h
      simp only [List.foldl]
      exact ih (f x) n h

theorem foldl_overwrite_none {β γ : Type} (f : β → Option γ) :
    ∀ (ns : List β) (init : Option γ), (∀ n ∈ ns, f n = none) → init = none →
      ns.foldl (fun _a node => f node) init = none := by
  intro ns
  induction ns with
  | nil => intro init _ h; simpa using h
  | cons x xs ih =>
    intro init hv h
    simp only [List.foldl]
    exact ih (f x) (fun n hn => hv n (List.mem_cons_of_mem x hn))
      (hv x (List.mem_cons_self x xs))

theorem lookupKey_append (a b : List (String × Value)) (k : String) :
    lookupKey (a ++ b) k =
      match lookupKey b k with
      | some v => some v
      | none => lookupKey a k := by
  induction a with
  | nil => simp [lookupKey]; cases lookupKey b k <;> rfl
  | cons p rest ih =>
    cases p with
    | mk k' v =>
      cases hb : lookupKey b k <;> cases hr : lookupKey rest k <;>
        simp [lookupKey, List.cons_append, ih, hb, hr]

theorem isPrefixL_iff (p : List Char) : ∀ l : List Char,
    isPrefixL p l = true ↔ ∃ t, l = p ++ t := by
  induction p with
  | nil => intro l; simp [isPrefixL]
  | cons x xs ih =>
    intro l
    cases l with
    | nil => simp [isPrefixL]
    | cons c cs =>
      simp only [isPrefixL, Bool.and_eq_true, beq_iff_eq, ih cs]
      constructor
      · rintro ⟨hx, t, ht⟩
        exact ⟨t, by simp [hx, ht]⟩
      · rintro ⟨t, ht⟩
        injection ht with h1 h2
        exact ⟨h1.symm, t, h2⟩

theorem replFirst_first_occurrence (pat rep : List Char) (hp : pat ≠ []) :
    ∀ s : List Char, hasSub s pat = true →
    ∃ a b, s = a ++ pat ++ b ∧ hasSub a pat = false ∧
      replFirst s pat rep = a ++ rep ++ b := by
  intro s
  induction s with
  | nil =>
    intro h
    simp [hasSub, List.isEmpty_iff] at h
    exact absurd h hp
  | cons c rest ih =>
    intro h
    by_cases hpre : isPrefixL pat (c :: rest) = true
    · obtain ⟨t, ht⟩ := (isPrefixL_iff pat (c :: rest)).1 hpre
      refine ⟨[], t, by simpa using ht, ?_, ?_⟩
      · cases pat with
        | nil => exact absurd rfl hp
        | cons q qs => rfl
      · simp only [replFirst, hpre, if_true]
        rw [ht, List.drop_left]
        simp
    · have hsub : hasSub rest pat = true := by
        simp only [hasSub, Bool.or_eq_true] at h
        rcases h with h | h
        · exact absurd h hpre
        · exact h
      obtain ⟨a, b, hs, ha, hr⟩ := ih hsub
      refine ⟨c :: a, b, by simp [hs], ?_, ?_⟩
      · simp only [hasSub, Bool.or_eq_false_iff]
        refine ⟨?_, ha⟩
        by_contra hcon
        rw [Bool.not_eq_false] at hcon
        apply hpre
        rw [isPrefixL_iff] at hcon ⊢
        obtain ⟨t, htt⟩ := hcon
        refine ⟨t ++ (pat ++ b), ?_⟩
        rw [hs]
        have hassoc : c :: (a ++ pat ++ b) = (c :: a) ++ (pat ++ b) := by simp
        rw [hassoc, htt]
        simp
      · simp only [replFirst, hpre, if_false, hr]
        simp

end GqlFaker

namespace GqlFaker

/-- Claim C5: an Error default resolution is returned unchanged by the
field resolver, for every environment, schema, argument object and field,
so no synthesis, annotation lookup or mutation-echo merge can influence
the outcome. -/
theorem fakeFieldResolver_error_passthrough (env : Env) (schema : Schema)
    (parentTypeName : String) (fieldDef : FieldDef) (args : List (String × Value))
    (msg : String) :
    fakeFieldResolver env schema parentTypeName fieldDef args (Value.verror msg) =
      Except.ok (Value.verror msg) := rfl

/-- Claim C10: on a non-mutation parent type, any defined non-error
default resolution (null included) is returned as-is; only `undefined`
triggers synthesis. -/
theorem fakeFieldResolver_defined_passthrough (env : Env) (schema : Schema)
    (parentTypeName : String) (fieldDef : FieldDef) (args : List (String × Value))
    (v : Value) (hu : v ≠ Value.vundefined) (he : isErrorV v = false)
    (hm : schema.mutationTypeName ≠ some parentTypeName) :
    fakeFieldResolver env schema parentTypeName fieldDef args v = Except.ok v := by
  have hb : (schema.mutationTypeName == some parentTypeName) = false := by
    simp [hm]
  cases v with
  | vundefined => exact absurd rfl hu
  | verror m => simp [isErrorV] at he
  | vnull => simp [fakeFieldResolver, resolveBase, isErrorV, hb, pure, Except.pure, Bind.bind, Except.bind]
  | vbool b => simp [fakeFieldResolver, resolveBase, isErrorV, hb, pure, Except.pure, Bind.bind, Except.bind]
  | vint n => simp [fakeFieldResolver, resolveBase, isErrorV, hb, pure, Except.pure, Bind.bind, Except.bind]
  | vstr s => simp [fakeFieldResolver, resolveBase, isErrorV, hb, pure, Except.pure, Bind.bind, Except.bind]
  | varr xs => simp [fakeFieldResolver, resolveBase, isErrorV, hb, pure, Except.pure, Bind.bind, Except.bind]
  | vobj f => simp [fakeFieldResolver, resolveBase, isErrorV, hb, pure, Except.pure, Bind.bind, Except.bind]

/-- Witness for C10 at a concrete input: a null real value on a
non-mutation field passes through untouched. -/
theorem fakeFieldResolver_defined_passthrough_witness :
    fakeFieldResolver envW schemaW "Query" fdScalarW [] Value.vnull =
      Except.ok Value.vnull :=
  fakeFieldResolver_defined_passthrough envW schemaW "Query" fdScalarW [] Value.vnull
    (fun h => Value.noConfusion h) rfl (by decide)

/-- Claim C8: getDirectiveArgs fails exactly when the directive definition
is absent from the schema; with the definition present it returns the scan
of the element's declaration sites, and an element carrying zero
occurrences of the annotation yields `undefined` rather than a failure. -/
theorem getDirectiveArgs_assert {α : Type} (view : ASTNode → Option α) (el : Element) :
    getDirectiveArgs false view el = Except.error () ∧
    getDirectiveArgs true view el = Except.ok (scanDirective view el) ∧
    ((∀ n, el.astNode = some n → view n = none) →
     (∀ ns n, el.extensionNodes = some ns → n ∈ ns → view n = none) →
      getDirectiveArgs true view el = Except.ok none) := by
  refine ⟨rfl, rfl, fun hast hext => ?_⟩
  have hscan : scanDirective view el = none := by
    unfold scanDirective
    cases he : el.extensionNodes with
    | none => cases ha : el.astNode <;> simp_all
    | some ns =>
      cases ha : el.astNode with
      | none => exact foldl_overwrite_none view ns none (fun n hn => hext ns n he hn) rfl
      | some n0 =>
        exact foldl_overwrite_none view ns (view n0) (fun n hn => hext ns n he hn)
          (hast n0 ha)
  simp [getDirectiveArgs, hscan]

/-- Witness for C8 at a concrete input: with the directive defined and an
all-empty view, the extractor returns `undefined` instead of failing. -/
theorem getDirectiveArgs_assert_witness :
    getDirectiveArgs true (fun n => n.listLengthArgs) elExamples = Except.ok none :=
  (getDirectiveArgs_assert (fun n => n.listLengthArgs) elExamples).2.2
    (fun n hn => by
      injection hn with h
      rw [show n = nodeExamples from h.symm]
      rfl)
    (fun ns n hns _hn => by
      exact absurd hns (by simp [elExamples]))

/-- Counterexample for claim C2: the base declaration carries the
examples annotation, yet because the single extension node lacks it and
the scan overwrites unconditionally, the extractor returns `undefined`. -/
theorem getDirectiveArgs_base_lost_cex :
    (elBaseExtW.astNode.bind (fun n => n.examplesArgs)).isSome = true ∧
    getDirectiveArgs true (fun n => n.examplesArgs) elBaseExtW = Except.ok none :=
  ⟨rfl, rfl⟩

/-- Claim C2 (amended): the extractor's result is the lookup on the LAST
inspected declaration site — the last extension node when extension nodes
exist, otherwise the base declaration — whether or not that site carries
the annotation; a value on the base declaration is overwritten (possibly
by `undefined`) as soon as any extension node exists. -/
theorem getDirectiveArgs_last_node {α : Type} (view : ASTNode → Option α) (el : Element) :
    (∀ ns n, el.extensionNodes = some ns → ns.getLast? = some n →
      getDirectiveArgs true view el = Except.ok (view n)) ∧
    (el.extensionNodes = none →
      getDirectiveArgs true view el = Except.ok (el.astNode.bind view)) ∧
    (el.extensionNodes = some [] →
      getDirectiveArgs true view el = Except.ok (el.astNode.bind view)) := by
  refine ⟨?_, ?_, ?_⟩
  · intro ns n hext hlast
    simp only [getDirectiveArgs, if_true, scanDirective, hext]
    rw [foldl_overwrite_last view ns _ n hlast]
  · intro hext
    simp only [getDirectiveArgs, if_true, scanDirective, hext]
    cases el.astNode <;> simp
  · intro hext
    simp only [getDirectiveArgs, if_true, scanDirective, hext, List.foldl]
    cases el.astNode <;> simp

/-- Witness for the amended C2 at a concrete input: with one extension
node carrying nothing, the base value is lost and the extractor returns
the last node's (empty) lookup. -/
theorem getDirectiveArgs_last_node_witness :
    getDirectiveArgs true (fun n => n.examplesArgs) elBaseExtW =
      Except.ok (ASTNode.examplesArgs nodeNone) :=
  (getDirectiveArgs_last_node (fun n => n.examplesArgs) elBaseExtW).1
    [nodeNone] nodeNone rfl rfl

end GqlFaker

namespace GqlFaker

theorem getValueCB_orElse (schema : Schema) (fEl tEl : Element)
    (hf : schema.getDirective "fake" = true)
    (he : schema.getDirective "examples" = true) :
    getValueCB schema fEl tEl = Except.ok
      (((scanDirective (fun n => n.examplesArgs) fEl).map
          (fun a => ValueCB.examplesCB a.values)) <|>
       ((scanDirective (fun n => n.fakeArgs) fEl).map
          (fun a => ValueCB.fakeCB a.type a.options a.locale)) <|>
       ((scanDirective (fun n => n.examplesArgs) tEl).map
          (fun a => ValueCB.examplesCB a.values)) <|>
       ((scanDirective (fun n => n.fakeArgs) tEl).map
          (fun a => ValueCB.fakeCB a.type a.options a.locale))) := by
  unfold getValueCB getExampleValueCB getFakeValueCB getDirectiveArgs
  rw [hf, he]
  cases h1 : scanDirective (fun n => n.examplesArgs) fEl <;>
    cases h2 : scanDirective (fun n => n.fakeArgs) fEl <;>
      cases h3 : scanDirective (fun n => n.examplesArgs) tEl <;>
        cases h4 : scanDirective (fun n => n.fakeArgs) tEl <;>
          simp [Bind.bind, Except.bind, pure, Except.pure, Option.orElse]

/-- Claim C1: with the fake and examples directive definitions present (as
the merged schema always guarantees), the callback selected for a
non-wrapper type is exactly the first hit of: examples on the field, fake
on the field, examples on the named type, fake on the named type; a
field-level annotation wins regardless of the type's annotations, and for
leaf types fakeValueOfType returns the invocation of the selected
callback. -/
theorem getValueCB_precedence (schema : Schema) (fEl tEl : Element)
    (hf : schema.getDirective "fake" = true)
    (he : schema.getDirective "examples" = true) :
    (getValueCB schema fEl tEl = Except.ok
      (((scanDirective (fun n => n.examplesArgs) fEl).map
          (fun a => ValueCB.examplesCB a.values)) <|>
       ((scanDirective (fun n => n.fakeArgs) fEl).map
          (fun a => ValueCB.fakeCB a.type a.options a.locale)) <|>
       ((scanDirective (fun n => n.examplesArgs) tEl).map
          (fun a => ValueCB.examplesCB a.values)) <|>
       ((scanDirective (fun n => n.fakeArgs) tEl).map
          (fun a => ValueCB.fakeCB a.type a.options a.locale)))) ∧
    (∀ a, scanDirective (fun n => n.examplesArgs) fEl = some a →
      getValueCB schema fEl tEl = Except.ok (some (ValueCB.examplesCB a.values))) ∧
    (∀ a, scanDirective (fun n => n.examplesArgs) fEl = none →
      scanDirective (fun n => n.fakeArgs) fEl = some a →
      getValueCB schema fEl tEl =
        Except.ok (some (ValueCB.fakeCB a.type a.options a.locale))) ∧
    (∀ (env : Env) (fd : FieldDef) (nt : NamedType) (cb : ValueCB),
      fd.el = fEl → nt.el = tEl → isLeafKind nt.kind = true →
      getValueCB schema fEl tEl = Except.ok (some cb) →
      fakeValueOfType env schema fd (GQLType.named nt) = Except.ok (runCB env cb)) := by
  have hmain := getValueCB_orElse schema fEl tEl hf he
  refine ⟨hmain, ?_, ?_, ?_⟩
  · intro a ha
    rw [hmain, ha]
    rfl
  · intro a ha hb
    rw [hmain, ha, hb]
    rfl
  · intro env fd nt cb hfd hnt hleaf hcb
    unfold fakeValueOfType
    rw [hfd, hnt, hcb]
    simp [Bind.bind, Except.bind, hleaf, pure, Except.pure]

/-- Witness for C1: a field carrying a fake annotation while its type
carries an examples annotation selects the field's fake callback. -/
theorem getValueCB_precedence_witness :
    getValueCB schemaW elFake elExamples =
      Except.ok (some (ValueCB.fakeCB "address_city" Value.vnull Value.vnull)) :=
  (getValueCB_precedence schemaW elFake elExamples rfl rfl).2.2.1
    ⟨"address_city", Value.vnull, Value.vnull⟩ rfl rfl

/-- Claim C7: a scalar type with no registered faker and no annotation
synthesizes the placeholder string wrapping the type name in angle
brackets, and leaf synthesis never fails: with the directive definitions
present it always produces some value. -/
theorem fakeLeafValueCB_placeholder (env : Env) (schema : Schema)
    (fd : FieldDef) (nt : NamedType)
    (hk : nt.kind = TypeKind.scalar)
    (hg : env.stdScalarFakers nt.name = none)
    (hf : schema.getDirective "fake" = true)
    (he : schema.getDirective "examples" = true)
    (h1 : scanDirective (fun n => n.examplesArgs) fd.el = none)
    (h2 : scanDirective (fun n => n.fakeArgs) fd.el = none)
    (h3 : scanDirective (fun n => n.examplesArgs) nt.el = none)
    (h4 : scanDirective (fun n => n.fakeArgs) nt.el = none) :
    fakeLeafValueCB env nt = Value.vstr ("<" ++ nt.name ++ ">") ∧
    fakeValueOfType env schema fd (GQLType.named nt) =
      Except.ok (Value.vstr ("<" ++ nt.name ++ ">")) ∧
    (∀ (fd' : FieldDef) (nt' : NamedType), isLeafKind nt'.kind = true →
      ∃ v, fakeValueOfType env schema fd' (GQLType.named nt') = Except.ok v) := by
  have hleafv : fakeLeafValueCB env nt = Value.vstr ("<" ++ nt.name ++ ">") := by
    unfold fakeLeafValueCB
    rw [hk]
    simp [hg]
  have hcb : getValueCB schema fd.el nt.el = Except.ok none := by
    rw [getValueCB_orElse schema fd.el nt.el hf he, h1, h2, h3, h4]
    rfl
  refine ⟨hleafv, ?_, ?_⟩
  · unfold fakeValueOfType
    rw [hcb]
    simp [Bind.bind, Except.bind, hk, isLeafKind, pure, Except.pure, hleafv]
  · intro fd' nt' hleaf
    have hcb' := getValueCB_orElse schema fd'.el nt'.el hf he
    unfold fakeValueOfType
    rw [hcb']
    cases hx : (((scanDirective (fun n => n.examplesArgs) fd'.el).map
          (fun a => ValueCB.examplesCB a.values)) <|>
       ((scanDirective (fun n => n.fakeArgs) fd'.el).map
          (fun a => ValueCB.fakeCB a.type a.options a.locale)) <|>
       ((scanDirective (fun n => n.examplesArgs) nt'.el).map
          (fun a => ValueCB.examplesCB a.values)) <|>
       ((scanDirective (fun n => n.fakeArgs) nt'.el).map
          (fun a => ValueCB.fakeCB a.type a.options a.locale))) with
    | none => exact ⟨fakeLeafValueCB env nt', by simp [Bind.bind, Except.bind, hleaf, pure, Except.pure]⟩
    | some cb => exact ⟨runCB env cb, by simp [Bind.bind, Except.bind, hleaf, pure, Except.pure]⟩

/-- Witness for C7: the unknown scalar DateTime with no annotations
resolves to the placeholder. -/
theorem fakeLeafValueCB_placeholder_witness :
    fakeValueOfType envW schemaW fdScalarW (GQLType.named ntScalarW) =
      Except.ok (Value.vstr "<DateTime>") :=
  (fakeLeafValueCB_placeholder envW schemaW fdScalarW ntScalarW rfl rfl rfl rfl
    rfl rfl rfl rfl).2.1

end GqlFaker

namespace GqlFaker

/-- Claim C3: on a mutation-root field with composite return type whose
resolved value is a plain object, the result is the resolved object's
fields with the arguments spread over them: the single plain-object
`input` argument's own fields when it is the only argument, otherwise all
arguments; in particular an `{input: {name: "x"}}` call yields a result
whose `name` reads `"x"`. -/
theorem fakeFieldResolver_mutation_echo (env : Env) (schema : Schema)
    (parentTypeName : String) (fd : FieldDef) (args : List (String × Value))
    (dr r : Value)
    (hd : isErrorV dr = false)
    (hm : schema.mutationTypeName = some parentTypeName)
    (hc : isCompositeTypeW (getNullableType fd.type) = true)
    (hr : resolveBase env schema fd dr = Except.ok r)
    (hp : isPlainObject r = true) :
    (∀ g, args = [("input", Value.vobj g)] →
      fakeFieldResolver env schema parentTypeName fd args dr =
        Except.ok (Value.vobj (jsSpreadFields r ++ g))) ∧
    (((jsKeys args).length == 1 &&
        isPlainObject ((lookupKey args "input").getD Value.vundefined)) = false →
      fakeFieldResolver env schema parentTypeName fd args dr =
        Except.ok (Value.vobj (jsSpreadFields r ++ args))) ∧
    (∀ g x, args = [("input", Value.vobj g)] → lookupKey g "name" = some x →
      ∃ fs, fakeFieldResolver env schema parentTypeName fd args dr =
        Except.ok (Value.vobj fs) ∧ lookupKey fs "name" = some x) := by
  have hmut : (schema.mutationTypeName == some parentTypeName) = true := by
    simp [hm]
  have hcore : fakeFieldResolver env schema parentTypeName fd args dr =
      Except.ok (Value.vobj (jsSpreadFields r ++
        (if (jsKeys args).length == 1 &&
            isPlainObject ((lookupKey args "input").getD Value.vundefined) then
          jsSpreadFields ((lookupKey args "input").getD Value.vundefined)
        else
          args))) := by
    unfold fakeFieldResolver
    rw [hd]
    simp only [Bind.bind, Except.bind, hr, hmut, hc, hp, Bool.and_self, if_false,
      Bool.true_and, if_true, Bool.and_true]
    simp [pure, Except.pure]
  refine ⟨?_, ?_, ?_⟩
  · intro g hargs
    subst hargs
    rw [hcore]
    rfl
  · intro hcond
    rw [hcore, if_neg (by rw [hcond]; exact Bool.false_ne_true)]
  · intro g x hargs hname
    subst hargs
    rw [hcore]
    refine ⟨_, rfl, ?_⟩
    have : lookupKey (jsSpreadFields r ++
        (if (jsKeys [("input", Value.vobj g)]).length == 1 &&
            isPlainObject ((lookupKey [("input", Value.vobj g)] "input").getD
              Value.vundefined) then
          jsSpreadFields ((lookupKey [("input", Value.vobj g)] "input").getD
            Value.vundefined)
        else
          [("input", Value.vobj g)])) "name" =
        lookupKey (jsSpreadFields r ++ jsSpreadFields (Value.vobj g)) "name" := rfl
    rw [this, lookupKey_append]
    simp only [jsSpreadFields, hname]

/-- Witness for C3: a mutation field returning Payload, real value
`{id: 1}`, called with `{input: {name: "x"}}`, echoes `name: "x"`. -/
theorem fakeFieldResolver_mutation_echo_witness :
    fakeFieldResolver envW schemaW "Mutation" fdObjW
      [("input", Value.vobj [("name", Value.vstr "x")])]
      (Value.vobj [("id", Value.vint 1)]) =
      Except.ok (Value.vobj [("id", Value.vint 1), ("name", Value.vstr "x")]) :=
  (fakeFieldResolver_mutation_echo envW schemaW "Mutation" fdObjW
      [("input", Value.vobj [("name", Value.vstr "x")])]
      (Value.vobj [("id", Value.vint 1)]) (Value.vobj [("id", Value.vint 1)])
      rfl rfl rfl rfl rfl).1 [("name", Value.vstr "x")] rfl

end GqlFaker

namespace GqlFaker

/-- Claim C4: when the random primitive yields an inclusive in-range
integer, a synthesized list's length lies in [min, max] if the field
carries a listLength annotation with 0 ≤ min ≤ max, and in [2, 4] if it
carries none. -/
theorem fakeValueOfType_list_length (env : Env) (schema : Schema)
    (fd : FieldDef) (t : GQLType) (item : Value)
    (hl : schema.getDirective "listLength" = true)
    (hitem : fakeValueOfType env schema fd t = Except.ok item)
    (hr : ∀ lo hi : Int, lo ≤ hi → lo ≤ env.randInt lo hi ∧ env.randInt lo hi ≤ hi) :
    (∀ a, scanDirective (fun n => n.listLengthArgs) fd.el = some a →
      0 ≤ a.min → a.min ≤ a.max →
      ∃ l : List Value,
        fakeValueOfType env schema fd (GQLType.listW t) = Except.ok (Value.varr l) ∧
        a.min ≤ (l.length : Int) ∧ (l.length : Int) ≤ a.max) ∧
    (scanDirective (fun n => n.listLengthArgs) fd.el = none →
      ∃ l : List Value,
        fakeValueOfType env schema fd (GQLType.listW t) = Except.ok (Value.varr l) ∧
        2 ≤ l.length ∧ l.length ≤ 4) := by
  constructor
  · intro a ha h0 hminmax
    have hbounds := hr a.min a.max hminmax
    have hn0 : ¬ env.randInt a.min a.max < 0 := by omega
    refine ⟨List.replicate (env.randInt a.min a.max).toNat item, ?_, ?_, ?_⟩
    · unfold fakeValueOfType getListLength getDirectiveArgs
      rw [hl]
      simp only [Bind.bind, Except.bind, ha, getRandomInt, if_neg hn0, hitem,
        pure, Except.pure]
      simp [hn0]
    · rw [List.length_replicate, Int.toNat_of_nonneg (by omega)]
      exact hbounds.1
    · rw [List.length_replicate, Int.toNat_of_nonneg (by omega)]
      exact hbounds.2
  · intro ha
    have hbounds := hr 2 4 (by omega)
    have hn0 : ¬ env.randInt 2 4 < 0 := by omega
    refine ⟨List.replicate (env.randInt 2 4).toNat item, ?_, ?_, ?_⟩
    · unfold fakeValueOfType getListLength getDirectiveArgs
      rw [hl]
      simp only [Bind.bind, Except.bind, ha, getRandomInt, if_neg hn0, hitem,
        pure, Except.pure]
      simp [hn0]
    · rw [List.length_replicate]
      omega
    · rw [List.length_replicate]
      omega

/-- Witness for C4: a field annotated listLength(min: 1, max: 3) yields a
list of scalar placeholders whose length is within [1, 3]. -/
theorem fakeValueOfType_list_length_witness :
    ∃ l : List Value,
      fakeValueOfType envW schemaW fdListW
        (GQLType.listW (GQLType.named ntScalarW)) = Except.ok (Value.varr l) ∧
      (1 : Int) ≤ (l.length : Int) ∧ (l.length : Int) ≤ 3 := by
  have h := (fakeValueOfType_list_length envW schemaW fdListW
      (GQLType.named ntScalarW) (Value.vstr "<DateTime>") rfl rfl
      (fun lo hi hle => ⟨le_refl lo, hle⟩)).1 ⟨1, 3⟩ rfl (by decide) (by decide)
  exact h

/-- Claim C6: abstract-type resolution returns the external default
resolution when one exists (assumed to be one of the possible type names,
which is what a successful discriminator means); otherwise a random member
of the schema's possible types; the result's name is always in the
possible-types list, and the fallback pick is the uniform random index
into that list. -/
theorem fakeTypeResolver_possible (env : Env) (schema : Schema)
    (abstractTypeName : String) (dr : Option String)
    (hr : ∀ lo hi : Int, lo ≤ hi → lo ≤ env.randInt lo hi ∧ env.randInt lo hi ≤ hi)
    (hne : schema.possibleTypes abstractTypeName ≠ [])
    (hdr : ∀ s, dr = some s →
      s ∈ (schema.possibleTypes abstractTypeName).map NamedType.name) :
    ∃ res, fakeTypeResolver env schema dr abstractTypeName = some res ∧
      resolutionName res ∈ (schema.possibleTypes abstractTypeName).map NamedType.name ∧
      (∀ s, dr = some s → res = TypeResolution.namedRes s) ∧
      (dr = none → ∃ t, (schema.possibleTypes abstractTypeName).get?
          (env.randInt 0
            (Int.ofNat (schema.possibleTypes abstractTypeName).length - 1)).toNat =
            some t ∧
        res = TypeResolution.typeObjRes t) := by
  cases dr with
  | some s =>
    refine ⟨TypeResolution.namedRes s, rfl, hdr s rfl, fun s' hs' => ?_, fun h => by
      exact Option.noConfusion h⟩
    injection hs' with h
    rw [h]
  | none =>
    have hlen : 1 ≤ (schema.possibleTypes abstractTypeName).length := by
      cases hp : schema.possibleTypes abstractTypeName with
      | nil => exact absurd hp hne
      | cons x xs => simp
    have hbounds := hr 0 (Int.ofNat (schema.possibleTypes abstractTypeName).length - 1)
      (by simp only [Int.ofNat_eq_coe]; omega)
    simp only [Int.ofNat_eq_coe] at hbounds
    have hnN : ¬ env.randInt 0
        (Int.ofNat (schema.possibleTypes abstractTypeName).length - 1) < 0 := by
      simp only [Int.ofNat_eq_coe]
      omega
    have hlt : (env.randInt 0
        (Int.ofNat (schema.possibleTypes abstractTypeName).length - 1)).toNat <
        (schema.possibleTypes abstractTypeName).length := by
      simp only [Int.ofNat_eq_coe]
      omega
    have hget : (schema.possibleTypes abstractTypeName).get?
        (env.randInt 0
          (Int.ofNat (schema.possibleTypes abstractTypeName).length - 1)).toNat =
        some ((schema.possibleTypes abstractTypeName).get ⟨_, hlt⟩) :=
      List.get?_eq_get hlt
    refine ⟨TypeResolution.typeObjRes ((schema.possibleTypes abstractTypeName).get ⟨_, hlt⟩),
      ?_, ?_, ?_, ?_⟩
    · simp only [fakeTypeResolver, getRandomItem, getRandomInt]
      rw [if_neg hnN, hget]
      rfl
    · exact List.mem_map_of_mem NamedType.name
        (List.get_mem (schema.possibleTypes abstractTypeName) _ hlt)
    · intro s hs
      exact Option.noConfusion hs
    · intro _
      exact ⟨_, hget, rfl⟩

end GqlFaker

namespace GqlFaker

/-- Witness for C6: with no default resolution and possible types [Item],
the resolver returns a member of the possible-types list. -/
theorem fakeTypeResolver_possible_witness :
    ∃ res, fakeTypeResolver envW schemaW none "Pet" = some res ∧
      resolutionName res ∈ (schemaW.possibleTypes "Pet").map NamedType.name :=
  match fakeTypeResolver_possible envW schemaW "Pet" none
      (fun lo hi hle => ⟨le_refl lo, hle⟩)
      (by simp [schemaW])
      (fun s hs => Option.noConfusion hs) with
  | ⟨res, h1, h2, _, _⟩ => ⟨res, h1, h2⟩

/-- Counterexample for claim C9: an extension text containing the
placeholder token twice still contains the token after the substitution —
JS String.replace with a string pattern replaces only the first
occurrence, so the merged schema can retain placeholder tokens. -/
theorem substituteRootTypeName_leaves_token_cex :
    hasSub "extend type <RootTypeName> \x7b x: <RootTypeName> \x7d".toList rootTypeToken = true ∧
    hasSub (substituteRootTypeName
      "extend type <RootTypeName> \x7b x: <RootTypeName> \x7d" "Query").toList
      rootTypeToken = true :=
  ⟨rfl, rfl⟩

/-- Claim C9 (amended): before the merge, the FIRST occurrence of the
placeholder token in the extension text is replaced by the base schema's
root query type name; any later occurrence is left in place. -/
theorem substituteRootTypeName_first (extBody rootName : String)
    (h : hasSub extBody.toList rootTypeToken = true) :
    ∃ a b, extBody.toList = a ++ rootTypeToken ++ b ∧
      hasSub a rootTypeToken = false ∧
      (substituteRootTypeName extBody rootName).toList =
        a ++ rootName.toList ++ b := by
  have hp : rootTypeToken ≠ [] := by decide
  obtain ⟨a, b, hs, ha, hr⟩ :=
    replFirst_first_occurrence rootTypeToken rootName.toList hp extBody.toList h
  exact ⟨a, b, hs, ha, hr⟩

/-- Witness for the amended C9: a concrete extension text has its first
token occurrence substituted by the root type name Query. -/
theorem substituteRootTypeName_first_witness :
    ∃ a b, "extend type <RootTypeName> \x7b f: ID \x7d".toList = a ++ rootTypeToken ++ b ∧
      hasSub a rootTypeToken = false ∧
      (substituteRootTypeName "extend type <RootTypeName> \x7b f: ID \x7d" "Query").toList =
        a ++ "Query".toList ++ b :=
  substituteRootTypeName_first "extend type <RootTypeName> \x7b f: ID \x7d" "Query" rfl

end GqlFaker
